import Mathlib

/-!
A shallow embedding of the paijorot interpreter (src/token.rs, src/lexer.rs,
src/parser.rs, src/environment.rs, src/interpreter.rs), a small dynamically
typed scripting language: lexer, AST, environment and a tree-walking
evaluator, together with theorems checking the specification's claims.

Modelling conventions:
* Rust `f64` numbers are modelled as exact rationals `ℚ`; the saturating
  `as i64` cast keeps its explicit clamp to the `i64` range.  (`NaN` and
  rounding of non-integer decimal printing are outside the rational model.)
* `HashMap<String, Value>` is modelled as an association list with
  replace-on-insert, which realises the same `define`/`get`/`assign`/
  `contains_key` observations.
* The interpreter's possible divergence (the unbounded `goon` loop and
  function-call recursion through argument values) is handled by a fuel
  parameter; running out of fuel is the distinguished result `Res.timeout`.
* The standard-input collaborator behind `yeet` is modelled as an oracle
  list of already-parsed values carried in the state (the source parses a
  trimmed line as `f64`, falling back to the raw string); the `> ` prompt
  written by `print!` is not recorded in the list of `println!` lines.
* `println!` output is modelled as the list of printed lines, in order.
-/

namespace Paijorot

/-- Token kinds, from `src/token.rs` (`enum TokenType`). -/
inductive TokenType where
  | leftParen | rightParen | leftBrace | rightBrace
  | comma | semicolon
  | plus | minus | star | slash | modulo
  | equal | notEqual | greater | greaterEqual | less | lessEqual
  | identifier | stringTok | numberTok | booleanTok
  | yap | ts | pmo | gyat | hawk | tuah | goon | edge | yeet | sybau | yo | gurt
  | eof
deriving DecidableEq, Repr

/-- Runtime scalar literals, from `src/token.rs` (`enum Literal`);
`Number(f64)` is modelled as `ℚ`. -/
inductive Literal where
  | str (s : String)
  | num (q : ℚ)
  | boolean (b : Bool)
  | nil
deriving DecidableEq

/-- Expressions, from `src/parser.rs` (`enum Expr`).  A `Token` payload is
represented by the field the evaluator actually reads: the operator's
`token_type` for `Binary`, the `lexeme` for `Variable` and `Array` names;
the remembered `)` token of `Call` is dropped (never read). -/
inductive Expr where
  | lit (l : Literal)
  | grouping (inner : Expr)
  | variable (name : String)
  | binary (lhs : Expr) (op : TokenType) (rhs : Expr)
  | array (name : String) (elems : List Expr)
  | call (callee : Expr) (args : List Expr)

/-- Statements, from `src/parser.rs` (`enum Stmt`). -/
inductive Stmt where
  | expression (e : Expr)
  | print (e : Expr)
  | var (name : String) (initializer : Option Expr)
  | ifS (cond : Expr) (thenB : Stmt) (elseB : Option Stmt)
  | loop (count : Option Expr) (body : List Stmt)
  | breakS
  | function (name : String) (params : List String) (body : Expr)

/-- Runtime values, from `src/environment.rs` (`enum Value`); the
`Function` struct's three fields are inlined into the constructor. -/
inductive Value where
  | lit (l : Literal)
  | func (name : String) (params : List String) (body : Expr)
  | array (elems : List Value)

/-- The variable environment, from `src/environment.rs`: a `HashMap`
modelled as an association list with unique keys. -/
abbrev Env := List (String × Value)

/-- Source `Environment::define`: insert or overwrite unconditionally. -/
def envDefine (env : Env) (name : String) (v : Value) : Env :=
  match env with
  | [] => [(name, v)]
  | (k, w) :: rest =>
    if k = name then (k, v) :: rest else (k, w) :: envDefine rest name v

/-- Source `Environment::get`: the bound value, if any. -/
def envGet (env : Env) (name : String) : Option Value :=
  match env with
  | [] => none
  | (k, w) :: rest => if k = name then some w else envGet rest name

/-- Source `HashMap::contains_key`, as used by `Environment::assign`. -/
def envContains (env : Env) (name : String) : Bool :=
  match env with
  | [] => false
  | (k, _) :: rest => if k = name then true else envContains rest name

/-- Source `Environment::assign`: succeeds (replacing the binding) only when the
name is already bound, otherwise an undefined-variable error. -/
def envAssign (env : Env) (name : String) (v : Value) : Except String Env :=
  if envContains env name then .ok (envDefine env name v)
  else .error ("Undefined variable '" ++ name ++ "'.")

/-- Rust's `f64` `Display` for the numbers the claims print: an integer
prints as its decimal text.  (Non-integral rendering is abstracted by the
rational's own text; no claim exercises it.) -/
def numToString (q : ℚ) : String :=
  if q.den = 1 then toString q.num else toString q

mutual

/-- Source `Value::to_string` from `src/environment.rs`. -/
def valueToString : Value → String
  | .lit (.str s) => s
  | .lit (.num q) => numToString q
  | .lit (.boolean b) => toString b
  | .lit .nil => "nil"
  | .func name _ _ => "<function " ++ name ++ ">"
  | .array elems => "[" ++ valueListToString elems ++ "]"

/-- The `join(", ")` over an array's rendered elements. -/
def valueListToString : List Value → String
  | [] => ""
  | [v] => valueToString v
  | v :: rest => valueToString v ++ ", " ++ valueListToString rest

end

/-- Source `Interpreter::is_truthy`. -/
def isTruthy : Value → Bool
  | .lit .nil => false
  | .lit (.boolean b) => b
  | _ => true

/-- Truncation toward zero of a rational: the rounding `n as i64`
performs on a finite `f64` before saturation. -/
def ratTrunc (q : ℚ) : Int := if 0 ≤ q then ⌊q⌋ else ⌈q⌉

/-- Source `i64::MIN`. -/
def i64Min : Int := -(2 ^ 63)

/-- Source `i64::MAX`. -/
def i64Max : Int := 2 ^ 63 - 1

/-- The saturating `f64 → i64` cast on a finite value. -/
def i64Sat (t : Int) : Int := max i64Min (min i64Max t)

/-- The number of iterations `for _ in 0..(n as i64)` runs for a counted
loop whose count evaluated to the number `q`. -/
def iterCount (q : ℚ) : Nat := (i64Sat (ratTrunc q)).toNat

/-- Rust's `%` on `f64` (`fmod`): the remainder `a - trunc(a / b) * b`,
exact arithmetic. -/
def ratFMod (a b : ℚ) : ℚ := a - (ratTrunc (a / b) : ℚ) * b

/-- Source `Interpreter::add` from `src/interpreter.rs`: numeric sum, string
concatenation, or concatenation with the non-string side stringified;
the match arms in source order. -/
def add : Value → Value → Except String Value
  | .lit (.num a), .lit (.num b) => .ok (.lit (.num (a + b)))
  | .lit (.str a), .lit (.str b) => .ok (.lit (.str (a ++ b)))
  | .lit (.str a), b => .ok (.lit (.str (a ++ valueToString b)))
  | a, .lit (.str b) => .ok (.lit (.str (valueToString a ++ b)))
  | _, _ => .error "Operands must be numbers or strings."

/-- Source `Interpreter::subtract`. -/
def subtract : Value → Value → Except String Value
  | .lit (.num a), .lit (.num b) => .ok (.lit (.num (a - b)))
  | _, _ => .error "Operands must be numbers."

/-- Source `Interpreter::multiply`. -/
def multiply : Value → Value → Except String Value
  | .lit (.num a), .lit (.num b) => .ok (.lit (.num (a * b)))
  | _, _ => .error "Operands must be numbers."

/-- Source `Interpreter::divide`: errors on a zero right operand. -/
def divide : Value → Value → Except String Value
  | .lit (.num a), .lit (.num b) =>
    if b = 0 then .error "Division by zero." else .ok (.lit (.num (a / b)))
  | _, _ => .error "Operands must be numbers."

/-- Source `Interpreter::modulo`: errors on a zero right operand. -/
def modulo : Value → Value → Except String Value
  | .lit (.num a), .lit (.num b) =>
    if b = 0 then .error "Modulo by zero." else .ok (.lit (.num (ratFMod a b)))
  | _, _ => .error "Operands must be numbers."

/-- Source `Interpreter::greater`. -/
def greater : Value → Value → Except String Value
  | .lit (.num a), .lit (.num b) => .ok (.lit (.boolean (decide (b < a))))
  | _, _ => .error "Operands must be numbers."

/-- Source `Interpreter::greater_equal`. -/
def greaterEqual : Value → Value → Except String Value
  | .lit (.num a), .lit (.num b) => .ok (.lit (.boolean (decide (b ≤ a))))
  | _, _ => .error "Operands must be numbers."

/-- Source `Interpreter::less`. -/
def less : Value → Value → Except String Value
  | .lit (.num a), .lit (.num b) => .ok (.lit (.boolean (decide (a < b))))
  | _, _ => .error "Operands must be numbers."

/-- Source `Interpreter::less_equal`. -/
def lessEqual : Value → Value → Except String Value
  | .lit (.num a), .lit (.num b) => .ok (.lit (.boolean (decide (a ≤ b))))
  | _, _ => .error "Operands must be numbers."

/-- Source `Interpreter::equal`: same-kind scalar comparison, every other pair of
values compares `false` without error (the source's catch-all arm). -/
def equal : Value → Value → Except String Value
  | .lit (.num a), .lit (.num b) => .ok (.lit (.boolean (decide (a = b))))
  | .lit (.str a), .lit (.str b) => .ok (.lit (.boolean (decide (a = b))))
  | .lit (.boolean a), .lit (.boolean b) => .ok (.lit (.boolean (decide (a = b))))
  | .lit .nil, .lit .nil => .ok (.lit (.boolean true))
  | _, _ => .ok (.lit (.boolean false))

/-- Source `Interpreter::not_equal`: negates `equal`; the source's `unreachable!`
panic (hit only if `equal` returned a non-boolean, which it never does)
is modelled as an error. -/
def notEqual (l r : Value) : Except String Value :=
  match equal l r with
  | .ok (.lit (.boolean b)) => .ok (.lit (.boolean (!b)))
  | .ok _ => .error "unreachable"
  | .error m => .error m

/-- The evaluator state: the `Interpreter` struct's fields (`environment`,
`in_loop`, `should_break`) together with the external collaborators it
touches — the `println!` lines written so far and the oracle of remaining
(already-parsed) input values. -/
structure St where
  env : Env
  inLoop : Bool
  shouldBreak : Bool
  output : List String
  inputs : List Value

/-- The result of a fuel-bounded evaluation step: success with the new
state, a runtime error (`Err(String)` in the source), or fuel exhaustion
(the source diverging). -/
inductive Res (α : Type) where
  | ok (st : St) (val : α)
  | err (msg : String)
  | timeout

/-- Source `Interpreter::handle_input`: read a line, parse it as a number,
fall back to the trimmed string.  The parsed value comes from the input
oracle; an exhausted oracle is end-of-input, where `read_line` succeeds
with an empty line, giving the string `""`. -/
def handleInput (st : St) : Res Value :=
  match st.inputs with
  | [] => .ok st (.lit (.str ""))
  | v :: rest => .ok { st with inputs := rest } v

/-- Lift a pure binary-operator result (`&self` methods never touch the
state) into `Res`. -/
def liftExcept (st : St) : Except String Value → Res Value
  | .ok v => .ok st v
  | .error m => .err m

/-- The `zip`-and-`define` parameter binding of `call_function`: a fresh
`Environment::new()` receiving `define(param, arg)` for each zipped pair
in order. -/
def bindParams (params : List String) (args : List Value) : Env :=
  (params.zip args).foldl (fun env pa => envDefine env pa.1 pa.2) []

mutual

/-- Source `Interpreter::evaluate` from `src/interpreter.rs`, fuel-bounded. -/
def evaluate : Nat → St → Expr → Res Value
  | 0, _, _ => .timeout
  | _ + 1, st, .lit l =>
    match l with
    | .str s => if s = "__YEET__" then handleInput st else .ok st (.lit (.str s))
    | _ => .ok st (.lit l)
  | n + 1, st, .grouping inner => evaluate n st inner
  | _ + 1, st, .variable name =>
    match envGet st.env name with
    | some v => .ok st v
    | none => .err ("Undefined variable '" ++ name ++ "'.")
  | n + 1, st, .binary lhs op rhs =>
    match evaluate n st lhs with
    | .ok st1 lv =>
      match evaluate n st1 rhs with
      | .ok st2 rv =>
        match op with
        | .plus => liftExcept st2 (add lv rv)
        | .minus => liftExcept st2 (subtract lv rv)
        | .star => liftExcept st2 (multiply lv rv)
        | .slash => liftExcept st2 (divide lv rv)
        | .modulo => liftExcept st2 (modulo lv rv)
        | .greater => liftExcept st2 (greater lv rv)
        | .greaterEqual => liftExcept st2 (greaterEqual lv rv)
        | .less => liftExcept st2 (less lv rv)
        | .lessEqual => liftExcept st2 (lessEqual lv rv)
        | .equal => liftExcept st2 (equal lv rv)
        | .notEqual => liftExcept st2 (notEqual lv rv)
        | .pmo =>
          match lhs with
          | .variable varName =>
            match envAssign st2.env varName rv with
            | .ok env2 => .ok { st2 with env := env2 } rv
            | .error m => .err m
          | _ => .err "Invalid assignment target."
        | _ => .err "Unsupported binary operation."
      | .err m => .err m
      | .timeout => .timeout
    | .err m => .err m
    | .timeout => .timeout
  | n + 1, st, .array name elems =>
    match evalArgs n st elems with
    | .ok st1 vs =>
      .ok { st1 with env := envDefine st1.env name (.array vs) } (.array vs)
    | .err m => .err m
    | .timeout => .timeout
  | n + 1, st, .call callee args =>
    match evaluate n st callee with
    | .ok st1 cv =>
      match evalArgs n st1 args with
      | .ok st2 avs => callFunction n st2 cv avs
      | .err m => .err m
      | .timeout => .timeout
    | .err m => .err m
    | .timeout => .timeout

/-- The argument-evaluation loops of `Expr::Array` and `Expr::Call`:
each element in listed order. -/
def evalArgs : Nat → St → List Expr → Res (List Value)
  | 0, _, _ => .timeout
  | _ + 1, st, [] => .ok st []
  | n + 1, st, e :: rest =>
    match evaluate n st e with
    | .ok st1 v =>
      match evalArgs n st1 rest with
      | .ok st2 vs => .ok st2 (v :: vs)
      | .err m => .err m
      | .timeout => .timeout
    | .err m => .err m
    | .timeout => .timeout

/-- Source `Interpreter::call_function`: argument-count check, then the body
evaluated by a fresh interpreter over a brand-new environment holding
only the parameters, with both flags false; the caller keeps its own
environment and flags, only the external world (output, input oracle)
is shared. -/
def callFunction : Nat → St → Value → List Value → Res Value
  | 0, _, _, _ => .timeout
  | n + 1, st, .func _ params body, args =>
    if params.length ≠ args.length then
      .err ("Expected " ++ toString params.length ++ " arguments but got "
            ++ toString args.length ++ ".")
    else
      match evaluate n
          { env := bindParams params args, inLoop := false,
            shouldBreak := false, output := st.output, inputs := st.inputs }
          body with
      | .ok st1 v => .ok { st with output := st1.output, inputs := st1.inputs } v
      | .err m => .err m
      | .timeout => .timeout
  | _ + 1, _, _, _ => .err "Can only call functions."

/-- Source `Interpreter::execute` from `src/interpreter.rs`, fuel-bounded. -/
def execute : Nat → St → Stmt → Res Unit
  | 0, _, _ => .timeout
  | n + 1, st, .expression e =>
    match evaluate n st e with
    | .ok st1 _ => .ok st1 ()
    | .err m => .err m
    | .timeout => .timeout
  | n + 1, st, .print e =>
    match evaluate n st e with
    | .ok st1 v => .ok { st1 with output := st1.output ++ [valueToString v] } ()
    | .err m => .err m
    | .timeout => .timeout
  | n + 1, st, .var name initializer =>
    match initializer with
    | some e =>
      match evaluate n st e with
      | .ok st1 v => .ok { st1 with env := envDefine st1.env name v } ()
      | .err m => .err m
      | .timeout => .timeout
    | none => .ok { st with env := envDefine st.env name (.lit .nil) } ()
  | n + 1, st, .ifS cond thenB elseB =>
    match evaluate n st cond with
    | .ok st1 cv =>
      if isTruthy cv then execute n st1 thenB
      else
        match elseB with
        | some elseStmt => execute n st1 elseStmt
        | none => .ok st1 ()
    | .err m => .err m
    | .timeout => .timeout
  | n + 1, st, .loop cond body =>
    match cond with
    | some countExpr =>
      match evaluate n { st with inLoop := true } countExpr with
      | .ok st1 (.lit (.num q)) =>
        match countedIters n st1 body (iterCount q) with
        | .ok st2 _ => .ok { st2 with inLoop := st.inLoop } ()
        | .err m => .err m
        | .timeout => .timeout
      | .ok _ _ => .err "Loop condition must evaluate to a number."
      | .err m => .err m
      | .timeout => .timeout
    | none =>
      match infLoop n { st with inLoop := true } body with
      | .ok st2 _ => .ok { st2 with inLoop := st.inLoop } ()
      | .err m => .err m
      | .timeout => .timeout
  | _ + 1, st, .breakS =>
    if st.inLoop then .ok { st with shouldBreak := true } ()
    else .err "'sybau' statement outside of a loop."
  | _ + 1, st, .function name params body =>
    .ok { st with env := envDefine st.env name (.func name params body) } ()

/-- One pass of `for stmt in body` inside a loop: each statement followed
by the break-flag check that clears the flag and leaves the pass early. -/
def runBody : Nat → St → List Stmt → Res Unit
  | 0, _, _ => .timeout
  | _ + 1, st, [] => .ok st ()
  | n + 1, st, s :: rest =>
    match execute n st s with
    | .ok st1 _ =>
      if st1.shouldBreak then .ok { st1 with shouldBreak := false } ()
      else runBody n st1 rest
    | .err m => .err m
    | .timeout => .timeout

/-- The counted arm `for _ in 0..iterations`, with the source's
per-iteration break-flag check after the body pass. -/
def countedIters : Nat → St → List Stmt → Nat → Res Unit
  | 0, _, _, _ => .timeout
  | _ + 1, st, _, 0 => .ok st ()
  | n + 1, st, body, k + 1 =>
    match runBody n st body with
    | .ok st1 _ =>
      if st1.shouldBreak then .ok { st1 with shouldBreak := false } ()
      else countedIters n st1 body k
    | .err m => .err m
    | .timeout => .timeout

/-- The unbounded `loop` arm, with the same per-round break-flag check. -/
def infLoop : Nat → St → List Stmt → Res Unit
  | 0, _, _ => .timeout
  | n + 1, st, body =>
    match runBody n st body with
    | .ok st1 _ =>
      if st1.shouldBreak then .ok { st1 with shouldBreak := false } ()
      else infLoop n st1 body
    | .err m => .err m
    | .timeout => .timeout

end

/-- Source `Interpreter::interpret`: each top-level statement in order, followed
by the source's check that the break flag did not escape. -/
def interpret : Nat → St → List Stmt → Res Unit
  | _, st, [] => .ok st ()
  | n, st, s :: rest =>
    match execute n st s with
    | .ok st1 _ =>
      if st1.shouldBreak then .err "'sybau' statement outside of a loop."
      else interpret n st1 rest
    | .err m => .err m
    | .timeout => .timeout

/-- The same driver without the escaped-break check; stated from the
spec's reading that the check is unreachable, for comparison with
`interpret`. -/
def interpretUnchecked : Nat → St → List Stmt → Res Unit
  | _, st, [] => .ok st ()
  | n, st, s :: rest =>
    match execute n st s with
    | .ok st1 _ => interpretUnchecked n st1 rest
    | .err m => .err m
    | .timeout => .timeout

/-- The state a fresh run starts from: `Environment::new()`,
`Interpreter::new` flags, nothing printed, no pending input. -/
def initSt : St := { env := [], inLoop := false, shouldBreak := false,
                     output := [], inputs := [] }

/-- The lines a successful run printed. -/
def resOutput : Res Unit → Option (List String)
  | .ok st _ => some st.output
  | _ => none

/-- The runtime error message of a failed evaluation, if any. -/
def resErr {α : Type} : Res α → Option String
  | .err m => some m
  | _ => none

/-! ### Environment lemmas -/

theorem envGet_define (env : Env) (k x : String) (v : Value) :
    envGet (envDefine env k v) x = if k = x then some v else envGet env x := by
  induction env with
  | nil => simp [envDefine, envGet]
  | cons hd tl ih =>
    obtain ⟨k', w⟩ := hd
    by_cases hk : k' = k
    · subst hk
      by_cases hx : k' = x <;> simp [envDefine, envGet, hx]
    · by_cases hx : k' = x
      · subst hx
        have : ¬ k = k' := fun h => hk h.symm
        simp [envDefine, envGet, hk, this]
      · simp [envDefine, envGet, hk, hx, ih]

theorem envContains_define (env : Env) (k x : String) (v : Value) :
    envContains (envDefine env k v) x =
      if k = x then true else envContains env x := by
  induction env with
  | nil => simp [envDefine, envContains]
  | cons hd tl ih =>
    obtain ⟨k', w⟩ := hd
    by_cases hk : k' = k
    · subst hk
      by_cases hx : k' = x <;> simp [envDefine, envContains, hx]
    · by_cases hx : k' = x
      · subst hx
        have : ¬ k = k' := fun h => hk h.symm
        simp [envDefine, envContains, hk, this]
      · simp [envDefine, envContains, hk, hx, ih]

theorem envContains_eq_isSome (env : Env) (x : String) :
    envContains env x = (envGet env x).isSome := by
  induction env with
  | nil => simp [envContains, envGet]
  | cons hd tl ih =>
    obtain ⟨k, w⟩ := hd
    by_cases hx : k = x <;> simp [envContains, envGet, hx, ih]

/-- C6 -- `Environment::assign` updates an existing binding in place and
signals an undefined-variable error otherwise, never creating a binding;
`y pmo 1` with no prior declaration of `y` is a runtime error. -/
theorem spec_c6_assign :
    (∀ (env : Env) (x : String) (v : Value), envContains env x = true →
        envAssign env x v = .ok (envDefine env x v) ∧
        envGet (envDefine env x v) x = some v ∧
        (∀ y, y ≠ x → envGet (envDefine env x v) y = envGet env y) ∧
        (∀ y, envContains (envDefine env x v) y = envContains env y)) ∧
    (∀ (env : Env) (x : String) (v : Value), envContains env x = false →
        envAssign env x v = .error ("Undefined variable '" ++ x ++ "'.")) ∧
    resErr (interpret 10 initSt
        [.expression (.binary (.variable "y") .pmo (.lit (.num 1)))]) =
      some "Undefined variable 'y'." := by
  refine ⟨fun env x v h => ⟨by simp [envAssign, h], ?_, ?_, ?_⟩,
    fun env x v h => by simp [envAssign, h], by decide⟩
  · simp [envGet_define]
  · intro y hy
    have : ¬ x = y := fun hxy => hy hxy.symm
    simp [envGet_define, this]
  · intro y
    rw [envContains_define]
    by_cases hxy : x = y
    · subst hxy; simp [h]
    · simp [hxy]

/-- Witness for C6: assigning to the bound name `x` succeeds and updates;
assigning to the unbound `z` fails; the undeclared-assignment program
errors. -/
theorem spec_c6_assign_witness :
    envContains [("x", Value.lit (.num 5))] "x" = true ∧
    envAssign [("x", Value.lit (.num 5))] "x" (.lit (.num 6)) =
      .ok [("x", Value.lit (.num 6))] ∧
    envContains [("x", Value.lit (.num 5))] "z" = false ∧
    envAssign [("x", Value.lit (.num 5))] "z" (.lit (.num 1)) =
      .error "Undefined variable 'z'." := by
  refine ⟨rfl, ?_, rfl, ?_⟩
  · exact (spec_c6_assign.1 [("x", Value.lit (.num 5))] "x" (.lit (.num 6)) rfl).1
  · exact spec_c6_assign.2.1 [("x", Value.lit (.num 5))] "z" (.lit (.num 1)) rfl

/-! ### Operator semantics -/

/-- C4 -- division and modulo error exactly on a zero right operand and
otherwise return quotient / remainder; `yap 1 / 0;` and `yap 1 % 0;`
fail with the corresponding error. -/
theorem spec_c4_divmod :
    (∀ a b : ℚ, divide (.lit (.num a)) (.lit (.num b)) =
        if b = 0 then .error "Division by zero."
        else .ok (.lit (.num (a / b)))) ∧
    (∀ a b : ℚ, modulo (.lit (.num a)) (.lit (.num b)) =
        if b = 0 then .error "Modulo by zero."
        else .ok (.lit (.num (ratFMod a b)))) ∧
    resErr (interpret 10 initSt
        [.print (.binary (.lit (.num 1)) .slash (.lit (.num 0)))]) =
      some "Division by zero." ∧
    resErr (interpret 10 initSt
        [.print (.binary (.lit (.num 1)) .modulo (.lit (.num 0)))]) =
      some "Modulo by zero." :=
  ⟨fun _ _ => rfl, fun _ _ => rfl, by decide, by decide⟩

/-- C5 -- `+` is numeric sum on two numbers, concatenation on two strings,
concatenation with the non-string side stringified when exactly one side
is a string, and an error otherwise; `yap 1 + 1;` prints `2`,
`yap "a" + 1;` prints `a1`, `yap 1 + "a";` prints `1a`. -/
theorem spec_c5_add :
    (∀ a b : ℚ, add (.lit (.num a)) (.lit (.num b)) =
        .ok (.lit (.num (a + b)))) ∧
    (∀ s t : String, add (.lit (.str s)) (.lit (.str t)) =
        .ok (.lit (.str (s ++ t)))) ∧
    (∀ (s : String) (b : Value), (∀ t, b ≠ .lit (.str t)) →
        add (.lit (.str s)) b = .ok (.lit (.str (s ++ valueToString b)))) ∧
    (∀ (a : Value) (t : String), (∀ s, a ≠ .lit (.str s)) →
        add a (.lit (.str t)) = .ok (.lit (.str (valueToString a ++ t)))) ∧
    (∀ a b : Value, (∀ s, a ≠ .lit (.str s)) → (∀ t, b ≠ .lit (.str t)) →
        (∀ p q : ℚ, ¬(a = .lit (.num p) ∧ b = .lit (.num q))) →
        add a b = .error "Operands must be numbers or strings.") ∧
    resOutput (interpret 10 initSt
        [.print (.binary (.lit (.num 1)) .plus (.lit (.num 1)))]) =
      some ["2"] ∧
    resOutput (interpret 10 initSt
        [.print (.binary (.lit (.str "a")) .plus (.lit (.num 1)))]) =
      some ["a1"] ∧
    resOutput (interpret 10 initSt
        [.print (.binary (.lit (.num 1)) .plus (.lit (.str "a")))]) =
      some ["1a"] := by
  refine ⟨fun _ _ => rfl, fun _ _ => rfl, ?_, ?_, ?_, ?_, by decide, by decide⟩
  · intro s b h
    rcases b with ⟨l⟩ | ⟨nm, ps, bd⟩ | xs
    · rcases l with t | q | bb | _
      · exact absurd rfl (h t)
      · rfl
      · rfl
      · rfl
    · rfl
    · rfl
  · intro a t h
    rcases a with ⟨l⟩ | ⟨nm, ps, bd⟩ | xs
    · rcases l with s | q | bb | _
      · exact absurd rfl (h s)
      · rfl
      · rfl
      · rfl
    · rfl
    · rfl
  · intro a b h1 h2 h3
    rcases a with ⟨la⟩ | ⟨nma, psa, bda⟩ | xsa <;>
      rcases b with ⟨lb⟩ | ⟨nmb, psb, bdb⟩ | xsb <;>
      first
        | rfl
        | (rcases la with sa | qa | ba | _ <;>
            first
              | exact absurd rfl (h1 _)
              | rfl
              | (rcases lb with sb | qb | bb | _ <;>
                  first
                    | exact absurd rfl (h1 _)
                    | exact absurd rfl (h2 _)
                    | exact absurd ⟨rfl, rfl⟩ (h3 _ _)
                    | rfl))
        | (rcases lb with sb | qb | bb | _ <;>
            first
              | exact absurd rfl (h2 _)
              | rfl)
  · have key : interpret 10 initSt
        [.print (.binary (.lit (.num 1)) .plus (.lit (.num 1)))] =
        .ok { env := [], inLoop := false, shouldBreak := false,
              output := [valueToString (.lit (.num (1 + 1)))], inputs := [] } () := rfl
    have h2 : (1 + 1 : ℚ) = 2 := by norm_num
    rw [key, h2]
    decide

/-- Witness for C5: the mixed-side and error cases at concrete values. -/
theorem spec_c5_add_witness :
    add (.lit (.str "a")) (.lit (.num 1)) =
      .ok (.lit (.str ("a" ++ valueToString (.lit (.num 1))))) ∧
    add (.lit (.boolean true)) (.lit .nil) =
      .error "Operands must be numbers or strings." :=
  ⟨spec_c5_add.2.2.1 "a" (.lit (.num 1)) (fun t h => by simp at h),
   spec_c5_add.2.2.2.2.1 (.lit (.boolean true)) (.lit .nil)
     (fun s h => by simp at h) (fun t h => by simp at h)
     (fun p q h => by simp at h)⟩

/-- The pairs the source's `equal` compares by value: two numbers, two
strings, two booleans, or two nils (the four explicit match arms). -/
def primPair : Value → Value → Bool
  | .lit (.num _), .lit (.num _) => true
  | .lit (.str _), .lit (.str _) => true
  | .lit (.boolean _), .lit (.boolean _) => true
  | .lit .nil, .lit .nil => true
  | _, _ => false

/-- C9 -- equality comparison never errors: it always yields a boolean,
is `false` on every cross-kind or non-scalar pair (identical arrays and
identical functions included), and `!=` is always its boolean negation. -/
theorem spec_c9_equality :
    (∀ a b : Value, ∃ r : Bool, equal a b = .ok (.lit (.boolean r)) ∧
        notEqual a b = .ok (.lit (.boolean (!r)))) ∧
    (∀ a b : Value, primPair a b = false →
        equal a b = .ok (.lit (.boolean false))) ∧
    (∀ xs : List Value, equal (.array xs) (.array xs) =
        .ok (.lit (.boolean false))) ∧
    (∀ (nm : String) (ps : List String) (body : Expr),
        equal (.func nm ps body) (.func nm ps body) =
          .ok (.lit (.boolean false))) := by
  refine ⟨?_, ?_, fun xs => rfl, fun nm ps body => rfl⟩
  · intro a b
    rcases a with ⟨la⟩ | ⟨nma, psa, bda⟩ | xsa <;>
      rcases b with ⟨lb⟩ | ⟨nmb, psb, bdb⟩ | xsb <;>
      first
        | exact ⟨_, rfl, rfl⟩
        | (rcases la with sa | qa | ba | _ <;>
            first
              | exact ⟨_, rfl, rfl⟩
              | (rcases lb with sb | qb | bb | _ <;> exact ⟨_, rfl, rfl⟩))
  · intro a b h
    rcases a with ⟨la⟩ | ⟨nma, psa, bda⟩ | xsa <;>
      rcases b with ⟨lb⟩ | ⟨nmb, psb, bdb⟩ | xsb <;>
      first
        | rfl
        | (rcases la with sa | qa | ba | _ <;>
            first
              | rfl
              | (rcases lb with sb | qb | bb | _ <;>
                  first
                    | rfl
                    | simp [primPair] at h))

/-- Witness for C9: the cross-kind pair `1 == "1"` compares `false`. -/
theorem spec_c9_equality_witness :
    primPair (.lit (.num 1)) (.lit (.str "1")) = false ∧
    equal (.lit (.num 1)) (.lit (.str "1")) = .ok (.lit (.boolean false)) :=
  ⟨rfl, spec_c9_equality.2.1 _ _ rfl⟩

/-- C7 -- a Break statement errors when the inside-loop flag is false and
otherwise sets the break flag and succeeds; `sybau;` at top level fails. -/
theorem spec_c7_break :
    (∀ (n : Nat) (st : St), execute (n + 1) st .breakS =
        if st.inLoop then .ok { st with shouldBreak := true } ()
        else .err "'sybau' statement outside of a loop.") ∧
    resErr (interpret 10 initSt [.breakS]) =
      some "'sybau' statement outside of a loop." :=
  ⟨fun _ _ => rfl, by decide⟩

/-! ### Loop iteration counts -/

theorem iterCount_eq_zero (q : ℚ) (h : q < 1) : iterCount q = 0 := by
  by_cases h0 : 0 ≤ q
  · have hfl : ⌊q⌋ = 0 := Int.floor_eq_zero_iff.mpr ⟨h0, h⟩
    simp only [iterCount, ratTrunc, if_pos h0, hfl, i64Sat, i64Min, i64Max]
    decide
  · have hq : q < 0 := lt_of_not_ge h0
    have hceil : ⌈q⌉ ≤ 0 := Int.ceil_le.mpr (by exact_mod_cast hq.le)
    simp only [iterCount, ratTrunc, if_neg h0, i64Sat, i64Min, i64Max]
    omega

/-- C1 (the code evaluated at the failing input) --
`goon(3) yap 1; sybau; edge` prints `1` three times, exactly like
`goon(3) yap 1; edge`: a `sybau` only ends the current body pass, because
the inner statement loop clears `should_break` before the outer
per-iteration check reads it, so the counted loop still runs every
iteration. -/
theorem spec_c1_break_run :
    resOutput (interpret 20 initSt
        [.loop (some (.lit (.num 3))) [.print (.lit (.num 1)), .breakS]]) =
      some ["1", "1", "1"] ∧
    resOutput (interpret 20 initSt
        [.loop (some (.lit (.num 3))) [.print (.lit (.num 1))]]) =
      some ["1", "1", "1"] :=
  ⟨by decide, by decide⟩

/-- C10 -- a counted loop whose count evaluates to a number `q < 1`
(zero or negative included) runs its body zero times and completes
normally with the state unchanged; in general the iteration count is the
truncation toward zero, clamped to non-negative (the saturating `i64`
cast followed by the empty-range behaviour of `0..n` for negative `n`). -/
theorem spec_c10_zero_iterations :
    (∀ (n : Nat) (st : St) (q : ℚ) (body : List Stmt), q < 1 →
        execute (n + 2) st (.loop (some (.lit (.num q))) body) = .ok st ()) ∧
    (∀ q : ℚ, ratTrunc q ≤ i64Max → iterCount q = (ratTrunc q).toNat) ∧
    (∀ q : ℚ, q < 1 → iterCount q = 0) := by
  refine ⟨?_, ?_, iterCount_eq_zero⟩
  · intro n st q body h
    obtain ⟨env, il, sb, out, inp⟩ := st
    have h0 : iterCount q = 0 := iterCount_eq_zero q h
    simp only [execute, evaluate, h0, countedIters]
  · intro q h
    simp only [iterCount, i64Sat, i64Min, i64Max] at *
    omega

/-- Witness for C10: a negative count runs zero iterations; the count 3
is the plain truncation. -/
theorem spec_c10_zero_iterations_witness :
    ((-5 : ℚ) < 1 ∧
      execute 2 initSt (.loop (some (.lit (.num (-5)))) [.print (.lit (.num 1))]) =
        .ok initSt ()) ∧
    (ratTrunc 3 ≤ i64Max ∧ iterCount 3 = (ratTrunc 3).toNat) :=
  ⟨⟨by norm_num,
    spec_c10_zero_iterations.1 0 initSt (-5) [.print (.lit (.num 1))] (by norm_num)⟩,
   ⟨by decide, spec_c10_zero_iterations.2.1 3 (by decide)⟩⟩

/-! ### Flag invariants: expression evaluation never touches the flags -/

theorem liftExcept_ok {st st' : St} {v : Value} {x : Except String Value}
    (h : liftExcept st x = .ok st' v) : st' = st := by
  cases x with
  | ok w => injection h with h1 _; exact h1.symm
  | error m => exact Res.noConfusion h

theorem eval_flags_aux (n : Nat) :
    (∀ st e st' v, evaluate n st e = .ok st' v →
        st'.inLoop = st.inLoop ∧ st'.shouldBreak = st.shouldBreak) ∧
    (∀ st es st' vs, evalArgs n st es = .ok st' vs →
        st'.inLoop = st.inLoop ∧ st'.shouldBreak = st.shouldBreak) ∧
    (∀ st c args st' v, callFunction n st c args = .ok st' v →
        st'.inLoop = st.inLoop ∧ st'.shouldBreak = st.shouldBreak) := by
  induction n with
  | zero =>
    refine ⟨fun st e st' v h => ?_, fun st es st' vs h => ?_,
      fun st c args st' v h => ?_⟩ <;> exact Res.noConfusion h
  | succ n ih =>
    obtain ⟨ihE, ihA, ihC⟩ := ih
    refine ⟨fun st e st' v h => ?_, fun st es st' vs h => ?_,
      fun st c args st' v h => ?_⟩
    · cases e with
      | lit l =>
        cases l with
        | str s =>
          simp only [evaluate] at h
          by_cases hs : s = "__YEET__"
          · rw [if_pos hs] at h
            simp only [handleInput] at h
            cases hi : st.inputs with
            | nil => simp only [hi] at h; injection h with h1 _; subst h1; exact ⟨rfl, rfl⟩
            | cons hd tl => simp only [hi] at h; injection h with h1 _; subst h1; exact ⟨rfl, rfl⟩
          · rw [if_neg hs] at h
            injection h with h1 _; subst h1; exact ⟨rfl, rfl⟩
        | num q => simp only [evaluate] at h; injection h with h1 _; subst h1; exact ⟨rfl, rfl⟩
        | boolean b => simp only [evaluate] at h; injection h with h1 _; subst h1; exact ⟨rfl, rfl⟩
        | nil => simp only [evaluate] at h; injection h with h1 _; subst h1; exact ⟨rfl, rfl⟩
      | grouping inner =>
        simp only [evaluate] at h
        exact ihE _ _ _ _ h
      | «variable» name =>
        simp only [evaluate] at h
        cases hg : envGet st.env name with
        | some w => simp only [hg] at h; injection h with h1 _; subst h1; exact ⟨rfl, rfl⟩
        | none => simp only [hg] at h; exact Res.noConfusion h
      | binary lhs op rhs =>
        simp only [evaluate] at h
        cases hl : evaluate n st lhs with
        | ok st1 lv =>
          simp only [hl] at h
          cases hr : evaluate n st1 rhs with
          | ok st2 rv =>
            simp only [hr] at h
            obtain ⟨l1, l2⟩ := ihE _ _ _ _ hl
            obtain ⟨r1, r2⟩ := ihE _ _ _ _ hr
            cases op <;>
              first
                | exact Res.noConfusion h
                | (have h1 := liftExcept_ok h; rw [h1];
                   exact ⟨r1.trans l1, r2.trans l2⟩)
                | -- the assignment arm
                  (cases lhs <;>
                    first
                      | exact Res.noConfusion h
                      | (rename_i varName
                         cases ha : envAssign st2.env varName rv with
                         | ok env2 =>
                           simp only [ha] at h
                           injection h with h1 _
                           subst h1
                           exact ⟨r1.trans l1, r2.trans l2⟩
                         | error m => simp only [ha] at h; exact Res.noConfusion h))
          | err m => simp only [hr] at h; exact Res.noConfusion h
          | timeout => simp only [hr] at h; exact Res.noConfusion h
        | err m => simp only [hl] at h; exact Res.noConfusion h
        | timeout => simp only [hl] at h; exact Res.noConfusion h
      | array name elems =>
        simp only [evaluate] at h
        cases ha : evalArgs n st elems with
        | ok st1 vs =>
          simp only [ha] at h
          obtain ⟨a1, a2⟩ := ihA _ _ _ _ ha
          injection h with h1 _
          subst h1
          exact ⟨a1, a2⟩
        | err m => simp only [ha] at h; exact Res.noConfusion h
        | timeout => simp only [ha] at h; exact Res.noConfusion h
      | call callee args =>
        simp only [evaluate] at h
        cases hc : evaluate n st callee with
        | ok st1 cv =>
          simp only [hc] at h
          cases ha : evalArgs n st1 args with
          | ok st2 avs =>
            simp only [ha] at h
            obtain ⟨c1, c2⟩ := ihE _ _ _ _ hc
            obtain ⟨a1, a2⟩ := ihA _ _ _ _ ha
            obtain ⟨f1, f2⟩ := ihC _ _ _ _ _ h
            exact ⟨f1.trans (a1.trans c1), f2.trans (a2.trans c2)⟩
          | err m => simp only [ha] at h; exact Res.noConfusion h
          | timeout => simp only [ha] at h; exact Res.noConfusion h
        | err m => simp only [hc] at h; exact Res.noConfusion h
        | timeout => simp only [hc] at h; exact Res.noConfusion h
    · cases es with
      | nil =>
        simp only [evalArgs] at h
        injection h with h1 _; subst h1; exact ⟨rfl, rfl⟩
      | cons e rest =>
        simp only [evalArgs] at h
        cases he : evaluate n st e with
        | ok st1 v =>
          simp only [he] at h
          cases hr : evalArgs n st1 rest with
          | ok st2 ws =>
            simp only [hr] at h
            obtain ⟨e1, e2⟩ := ihE _ _ _ _ he
            obtain ⟨r1, r2⟩ := ihA _ _ _ _ hr
            injection h with h1 _
            subst h1
            exact ⟨r1.trans e1, r2.trans e2⟩
          | err m => simp only [hr] at h; exact Res.noConfusion h
          | timeout => simp only [hr] at h; exact Res.noConfusion h
        | err m => simp only [he] at h; exact Res.noConfusion h
        | timeout => simp only [he] at h; exact Res.noConfusion h
    · cases c with
      | lit l => simp only [callFunction] at h; exact Res.noConfusion h
      | array xs => simp only [callFunction] at h; exact Res.noConfusion h
      | func nm ps body =>
        simp only [callFunction] at h
        by_cases hlen : ps.length ≠ args.length
        · rw [if_pos hlen] at h; exact Res.noConfusion h
        · rw [if_neg hlen] at h
          cases hb : evaluate n
              { env := bindParams ps args, inLoop := false, shouldBreak := false,
                output := st.output, inputs := st.inputs } body with
          | ok st1 w =>
            simp only [hb] at h
            injection h with h1 _
            subst h1
            exact ⟨rfl, rfl⟩
          | err m => simp only [hb] at h; exact Res.noConfusion h
          | timeout => simp only [hb] at h; exact Res.noConfusion h

theorem evaluate_flags {n : Nat} {st : St} {e : Expr} {st' : St} {v : Value}
    (h : evaluate n st e = .ok st' v) :
    st'.inLoop = st.inLoop ∧ st'.shouldBreak = st.shouldBreak :=
  (eval_flags_aux n).1 st e st' v h

/-! ### Flag invariants: loops always come out with the break flag down -/

theorem runBody_ok_flag :
    ∀ (n : Nat) (st : St) (body : List Stmt) (st' : St) (u : Unit),
      runBody n st body = .ok st' u → st'.shouldBreak = false ∨ st' = st := by
  intro n
  induction n with
  | zero => intro st body st' u h; exact Res.noConfusion h
  | succ n ih =>
    intro st body st' u h
    cases body with
    | nil =>
      simp only [runBody] at h
      injection h with h1 _
      exact Or.inr h1.symm
    | cons s rest =>
      simp only [runBody] at h
      cases he : execute n st s with
      | ok st1 u1 =>
        simp only [he] at h
        by_cases hb : st1.shouldBreak
        · rw [if_pos hb] at h
          injection h with h1 _
          left; rw [← h1]
        · rw [if_neg hb] at h
          rcases ih _ _ _ _ h with hf | heq
          · exact Or.inl hf
          · left; rw [heq]; simpa using hb
      | err m => simp only [he] at h; exact Res.noConfusion h
      | timeout => simp only [he] at h; exact Res.noConfusion h

theorem countedIters_ok_flag :
    ∀ (n : Nat) (st : St) (body : List Stmt) (k : Nat) (st' : St) (u : Unit),
      countedIters n st body k = .ok st' u → st'.shouldBreak = false ∨ st' = st := by
  intro n
  induction n with
  | zero => intro st body k st' u h; exact Res.noConfusion h
  | succ n ih =>
    intro st body k st' u h
    cases k with
    | zero =>
      simp only [countedIters] at h
      injection h with h1 _
      exact Or.inr h1.symm
    | succ k =>
      simp only [countedIters] at h
      cases hr : runBody n st body with
      | ok st1 u1 =>
        simp only [hr] at h
        by_cases hb : st1.shouldBreak
        · rw [if_pos hb] at h
          injection h with h1 _
          left; rw [← h1]
        · rw [if_neg hb] at h
          rcases ih _ _ _ _ _ h with hf | heq
          · exact Or.inl hf
          · left; rw [heq]; simpa using hb
      | err m => simp only [hr] at h; exact Res.noConfusion h
      | timeout => simp only [hr] at h; exact Res.noConfusion h

theorem infLoop_ok_flag :
    ∀ (n : Nat) (st : St) (body : List Stmt) (st' : St) (u : Unit),
      infLoop n st body = .ok st' u → st'.shouldBreak = false := by
  intro n
  induction n with
  | zero => intro st body st' u h; exact Res.noConfusion h
  | succ n ih =>
    intro st body st' u h
    simp only [infLoop] at h
    cases hr : runBody n st body with
    | ok st1 u1 =>
      simp only [hr] at h
      by_cases hb : st1.shouldBreak
      · rw [if_pos hb] at h
        injection h with h1 _
        rw [← h1]
      · rw [if_neg hb] at h
        exact ih _ _ _ _ h
    | err m => simp only [hr] at h; exact Res.noConfusion h
    | timeout => simp only [hr] at h; exact Res.noConfusion h

/-- The two execute-level invariants of the break machinery: a completed
statement restores the in-loop flag it started with, and — entered with
both flags down — it leaves the break flag down. -/
theorem execute_flags_aux (n : Nat) :
    (∀ st s st' u, execute n st s = .ok st' u → st'.inLoop = st.inLoop) ∧
    (∀ st s st' u, st.shouldBreak = false → st.inLoop = false →
        execute n st s = .ok st' u → st'.shouldBreak = false) := by
  induction n with
  | zero =>
    refine ⟨fun st s st' u h => ?_, fun st s st' u _ _ h => ?_⟩ <;>
      exact Res.noConfusion h
  | succ n ih =>
    obtain ⟨ih1, ih2⟩ := ih
    have loopInv : ∀ (st : St) (cond : Option Expr) (body : List Stmt) st' (u : Unit),
        execute (n + 1) st (.loop cond body) = .ok st' u →
        st'.inLoop = st.inLoop ∧
          (st'.shouldBreak = false ∨ st'.shouldBreak = st.shouldBreak) := by
      intro st cond body st' u h
      cases cond with
      | some countExpr =>
        simp only [execute] at h
        cases hc : evaluate n { st with inLoop := true } countExpr with
        | ok st1 cv =>
          simp only [hc] at h
          have hfl := (evaluate_flags hc).2
          cases cv with
          | lit l =>
            cases l with
            | num q =>
              cases hk : countedIters n st1 body (iterCount q) with
              | ok st2 u2 =>
                simp only [hk] at h
                injection h with h1 _
                subst h1
                refine ⟨rfl, ?_⟩
                rcases countedIters_ok_flag _ _ _ _ _ _ hk with hf | heq
                · exact Or.inl hf
                · right; rw [heq]; exact hfl
              | err m => simp only [hk] at h; exact Res.noConfusion h
              | timeout => simp only [hk] at h; exact Res.noConfusion h
            | str s => exact Res.noConfusion h
            | boolean b => exact Res.noConfusion h
            | nil => exact Res.noConfusion h
          | func nm ps bd => exact Res.noConfusion h
          | array xs => exact Res.noConfusion h
        | err m => simp only [hc] at h; exact Res.noConfusion h
        | timeout => simp only [hc] at h; exact Res.noConfusion h
      | none =>
        simp only [execute] at h
        cases hl : infLoop n { st with inLoop := true } body with
        | ok st2 u2 =>
          simp only [hl] at h
          injection h with h1 _
          subst h1
          have hfl := infLoop_ok_flag _ _ _ _ _ hl
          exact ⟨rfl, Or.inl hfl⟩
        | err m => simp only [hl] at h; exact Res.noConfusion h
        | timeout => simp only [hl] at h; exact Res.noConfusion h
    constructor
    · intro st s st' u h
      cases s with
      | expression e =>
        simp only [execute] at h
        cases he : evaluate n st e with
        | ok st1 v =>
          simp only [he] at h
          injection h with h1 _
          subst h1
          exact (evaluate_flags he).1
        | err m => simp only [he] at h; exact Res.noConfusion h
        | timeout => simp only [he] at h; exact Res.noConfusion h
      | print e =>
        simp only [execute] at h
        cases he : evaluate n st e with
        | ok st1 v =>
          simp only [he] at h
          injection h with h1 _
          subst h1
          exact (evaluate_flags he).1
        | err m => simp only [he] at h; exact Res.noConfusion h
        | timeout => simp only [he] at h; exact Res.noConfusion h
      | var name initializer =>
        cases initializer with
        | some e =>
          simp only [execute] at h
          cases he : evaluate n st e with
          | ok st1 v =>
            simp only [he] at h
            injection h with h1 _
            subst h1
            exact (evaluate_flags he).1
          | err m => simp only [he] at h; exact Res.noConfusion h
          | timeout => simp only [he] at h; exact Res.noConfusion h
        | none =>
          simp only [execute] at h
          injection h with h1 _
          subst h1
          rfl
      | ifS cond thenB elseB =>
        simp only [execute] at h
        cases hc : evaluate n st cond with
        | ok st1 cv =>
          simp only [hc] at h
          by_cases ht : isTruthy cv
          · rw [if_pos ht] at h
            exact (ih1 _ _ _ _ h).trans (evaluate_flags hc).1
          · rw [if_neg ht] at h
            cases elseB with
            | some elseStmt => exact (ih1 _ _ _ _ h).trans (evaluate_flags hc).1
            | none =>
              injection h with h1 _
              subst h1
              exact (evaluate_flags hc).1
        | err m => simp only [hc] at h; exact Res.noConfusion h
        | timeout => simp only [hc] at h; exact Res.noConfusion h
      | loop cond body => exact (loopInv _ _ _ _ _ h).1
      | breakS =>
        simp only [execute] at h
        by_cases hb : st.inLoop
        · rw [if_pos hb] at h
          injection h with h1 _
          subst h1
          rfl
        · rw [if_neg hb] at h; exact Res.noConfusion h
      | function name params body =>
        simp only [execute] at h
        injection h with h1 _
        subst h1
        rfl
    · intro st s st' u hsb hil h
      cases s with
      | expression e =>
        simp only [execute] at h
        cases he : evaluate n st e with
        | ok st1 v =>
          simp only [he] at h
          injection h with h1 _
          subst h1
          exact (evaluate_flags he).2.trans hsb
        | err m => simp only [he] at h; exact Res.noConfusion h
        | timeout => simp only [he] at h; exact Res.noConfusion h
      | print e =>
        simp only [execute] at h
        cases he : evaluate n st e with
        | ok st1 v =>
          simp only [he] at h
          injection h with h1 _
          subst h1
          exact (evaluate_flags he).2.trans hsb
        | err m => simp only [he] at h; exact Res.noConfusion h
        | timeout => simp only [he] at h; exact Res.noConfusion h
      | var name initializer =>
        cases initializer with
        | some e =>
          simp only [execute] at h
          cases he : evaluate n st e with
          | ok st1 v =>
            simp only [he] at h
            injection h with h1 _
            subst h1
            exact (evaluate_flags he).2.trans hsb
          | err m => simp only [he] at h; exact Res.noConfusion h
          | timeout => simp only [he] at h; exact Res.noConfusion h
        | none =>
          simp only [execute] at h
          injection h with h1 _
          subst h1
          exact hsb
      | ifS cond thenB elseB =>
        simp only [execute] at h
        cases hc : evaluate n st cond with
        | ok st1 cv =>
          simp only [hc] at h
          have h1 : st1.shouldBreak = false := (evaluate_flags hc).2.trans hsb
          have h2 : st1.inLoop = false := (evaluate_flags hc).1.trans hil
          by_cases ht : isTruthy cv
          · rw [if_pos ht] at h
            exact ih2 _ _ _ _ h1 h2 h
          · rw [if_neg ht] at h
            cases elseB with
            | some elseStmt => exact ih2 _ _ _ _ h1 h2 h
            | none =>
              injection h with h3 _
              subst h3
              exact h1
        | err m => simp only [hc] at h; exact Res.noConfusion h
        | timeout => simp only [hc] at h; exact Res.noConfusion h
      | loop cond body =>
        rcases (loopInv _ _ _ _ _ h).2 with hf | heq
        · exact hf
        · exact heq.trans hsb
      | breakS =>
        simp only [execute] at h
        rw [if_neg (by rw [hil]; exact Bool.false_ne_true)] at h
        exact Res.noConfusion h
      | function name params body =>
        simp only [execute] at h
        injection h with h1 _
        subst h1
        exact hsb

/-- Under the top-level entry flags, the escaped-break check of
`interpret` never fires: the checked and unchecked drivers agree. -/
theorem interpret_eq_unchecked :
    ∀ (n : Nat) (stmts : List Stmt) (st : St),
      st.shouldBreak = false → st.inLoop = false →
      interpret n st stmts = interpretUnchecked n st stmts := by
  intro n stmts
  induction stmts with
  | nil => intro st _ _; rfl
  | cons s rest ih =>
    intro st h1 h2
    simp only [interpret, interpretUnchecked]
    cases he : execute n st s with
    | ok st1 u =>
      have hf : st1.shouldBreak = false := (execute_flags_aux n).2 _ _ _ _ h1 h2 he
      have hl : st1.inLoop = false := ((execute_flags_aux n).1 _ _ _ _ he).trans h2
      simp only [hf, Bool.false_eq_true, if_false]
      exact ih st1 hf hl
    | err m => rfl
    | timeout => rfl

/-- C8 -- entered with both flags down, a completed statement leaves the
break flag down (the flag never escapes a completed loop), so the
escaped-break error check in `Interpreter::interpret` can never fire:
the checked driver coincides with the uncheck-variant. -/
theorem spec_c8_no_break_escape :
    (∀ (n : Nat) (st : St) (s : Stmt) (st' : St) (u : Unit),
        st.shouldBreak = false → st.inLoop = false →
        execute n st s = .ok st' u → st'.shouldBreak = false) ∧
    (∀ (n : Nat) (stmts : List Stmt) (st : St),
        st.shouldBreak = false → st.inLoop = false →
        interpret n st stmts = interpretUnchecked n st stmts) :=
  ⟨fun n st s st' u h1 h2 h => (execute_flags_aux n).2 st s st' u h1 h2 h,
   interpret_eq_unchecked⟩

/-- Witness for C8: a concrete completed statement from the initial state
keeps the break flag down, and the two drivers agree on it. -/
theorem spec_c8_no_break_escape_witness :
    initSt.shouldBreak = false ∧ initSt.inLoop = false ∧
    execute 3 initSt (.print (.lit (.num 1))) =
      .ok ⟨[], false, false, ["1"], []⟩ () ∧
    (⟨[], false, false, ["1"], []⟩ : St).shouldBreak = false ∧
    interpret 3 initSt [.print (.lit (.num 1))] =
      interpretUnchecked 3 initSt [.print (.lit (.num 1))] :=
  ⟨rfl, rfl, rfl,
   spec_c8_no_break_escape.1 3 initSt (.print (.lit (.num 1)))
     ⟨[], false, false, ["1"], []⟩ () rfl rfl rfl,
   spec_c8_no_break_escape.2 3 [.print (.lit (.num 1))] initSt rfl rfl⟩

/-! ### Function-call scoping -/

theorem foldl_define_get_none (l : List (String × Value)) (env : Env) (x : String) :
    envGet (l.foldl (fun e pa => envDefine e pa.1 pa.2) env) x = none ↔
      (x ∉ l.map Prod.fst ∧ envGet env x = none) := by
  induction l generalizing env with
  | nil => simp
  | cons p rest ih =>
    simp only [List.foldl_cons, List.map_cons, List.mem_cons]
    rw [ih, envGet_define]
    by_cases hp : p.1 = x
    · simp [hp]
    · have hx : ¬ x = p.1 := fun h => hp h.symm
      simp [hp, hx]

theorem foldl_define_get_notmem (l : List (String × Value)) (env : Env) (x : String)
    (hx : x ∉ l.map Prod.fst) :
    envGet (l.foldl (fun e pa => envDefine e pa.1 pa.2) env) x = envGet env x := by
  induction l generalizing env with
  | nil => rfl
  | cons p rest ih =>
    simp only [List.map_cons, List.mem_cons] at hx
    push_neg at hx
    simp only [List.foldl_cons]
    rw [ih _ hx.2, envGet_define, if_neg (fun h => hx.1 h.symm)]

theorem foldl_define_get_mem (l : List (String × Value)) (env : Env) (x : String) (v : Value)
    (hnd : (l.map Prod.fst).Nodup) (hmem : (x, v) ∈ l) :
    envGet (l.foldl (fun e pa => envDefine e pa.1 pa.2) env) x = some v := by
  induction l generalizing env with
  | nil => cases hmem
  | cons p rest ih =>
    simp only [List.map_cons, List.nodup_cons] at hnd
    simp only [List.foldl_cons]
    rcases List.mem_cons.mp hmem with heq | hmem2
    · subst heq
      rw [foldl_define_get_notmem _ _ _ hnd.1, envGet_define, if_pos rfl]
    · exact ih (envDefine env p.1 p.2) hnd.2 hmem2

theorem bindParams_get_none (ps : List String) (args : List Value) (x : String)
    (hlen : ps.length = args.length) :
    envGet (bindParams ps args) x = none ↔ x ∉ ps := by
  unfold bindParams
  rw [foldl_define_get_none, List.map_fst_zip _ _ (le_of_eq hlen)]
  simp [envGet]

theorem bindParams_get_mem (ps : List String) (args : List Value) (p : String) (a : Value)
    (hnd : ps.Nodup) (hlen : ps.length = args.length) (hmem : (p, a) ∈ ps.zip args) :
    envGet (bindParams ps args) p = some a := by
  unfold bindParams
  refine foldl_define_get_mem _ _ _ _ ?_ hmem
  rw [List.map_fst_zip _ _ (le_of_eq hlen)]
  exact hnd

/-- C3 (amended) -- a call that passes the argument-count check runs the
body in a brand-new state: the environment initially binds exactly the
parameter names (in order, to the corresponding arguments), both flags
start false, and only the external world is inherited from the caller;
a body that is a reference to a non-parameter name fails as undefined
regardless of the caller's bindings.  (The unamended universal claim
fails because an array literal evaluated earlier inside the body defines
its own name — see the counterexample.) -/
theorem spec_c3_call_scope :
    (∀ (ps : List String) (args : List Value) (x : String),
        ps.length = args.length →
        (envGet (bindParams ps args) x = none ↔ x ∉ ps)) ∧
    (∀ (ps : List String) (args : List Value) (p : String) (a : Value),
        ps.Nodup → ps.length = args.length → (p, a) ∈ ps.zip args →
        envGet (bindParams ps args) p = some a) ∧
    (∀ (n : Nat) (st : St) (nm x : String) (ps : List String) (args : List Value),
        ps.length = args.length → x ∉ ps →
        callFunction (n + 2) st (.func nm ps (.variable x)) args =
          .err ("Undefined variable '" ++ x ++ "'.")) ∧
    (∀ (n : Nat) (st : St) (nm : String) (ps : List String) (body : Expr)
        (args : List Value), ps.length = args.length →
        callFunction (n + 1) st (.func nm ps body) args =
          match evaluate n
              { env := bindParams ps args, inLoop := false, shouldBreak := false,
                output := st.output, inputs := st.inputs } body with
          | .ok st1 v => .ok { st with output := st1.output, inputs := st1.inputs } v
          | .err m => .err m
          | .timeout => .timeout) := by
  refine ⟨bindParams_get_none, bindParams_get_mem, ?_, ?_⟩
  · intro n st nm x ps args hlen hx
    have hg : envGet (bindParams ps args) x = none :=
      (bindParams_get_none ps args x hlen).mpr hx
    simp only [callFunction]
    rw [if_neg (not_not_intro hlen)]
    simp only [evaluate, hg]
  · intro n st nm ps body args hlen
    simp only [callFunction]
    rw [if_neg (not_not_intro hlen)]

/-- C3 counterexample: the claim "evaluating any Variable whose name is
not among the parameters inside the body yields an undefined-variable
error" is false — a parameterless call whose body first evaluates the
array literal `gyat a { }` and then reads `a` succeeds, because the array
literal defines `a` in the call's fresh environment. -/
theorem spec_c3_counterexample :
    callFunction 8 initSt
        (.func "f" [] (.binary (.array "a" []) .equal (.variable "a"))) [] =
      .ok initSt (.lit (.boolean false)) := rfl

/-- Witness for C3: one bound parameter, a body naming an unbound
variable fails; parameter lookups behave as bound. -/
theorem spec_c3_call_scope_witness :
    (["p"] : List String).length = ([Value.lit (.num 7)] : List Value).length ∧
    "q" ∉ (["p"] : List String) ∧
    callFunction 2 initSt (.func "f" ["p"] (.variable "q")) [.lit (.num 7)] =
      .err "Undefined variable 'q'." ∧
    envGet (bindParams ["p"] [.lit (.num 7)]) "p" = some (.lit (.num 7)) :=
  ⟨rfl, by decide,
   spec_c3_call_scope.2.2.1 0 initSt "f" "q" ["p"] [.lit (.num 7)] rfl (by decide),
   spec_c3_call_scope.2.1 ["p"] [.lit (.num 7)] "p" (.lit (.num 7))
     (by decide) rfl (by simp)⟩

/-! ### The lexer's string literals (src/lexer.rs) -/

/-- Source `Lexer::process_escape_sequences`: resolve `\n \t \r \\ \"`, error on
a backslash followed by any other character; a backslash followed by
nothing falls into the plain-character branch (the source's
`chars.peek().is_some()` guard) and is kept literally. -/
def processEscapeSequences (line : Nat) : List Char → Except String (List Char)
  | [] => .ok []
  | '\\' :: c :: rest =>
    match c with
    | 'n' => (processEscapeSequences line rest).map (List.cons '\n')
    | 't' => (processEscapeSequences line rest).map (List.cons '\t')
    | 'r' => (processEscapeSequences line rest).map (List.cons '\r')
    | '\\' => (processEscapeSequences line rest).map (List.cons '\\')
    | '"' => (processEscapeSequences line rest).map (List.cons '"')
    | _ => .error ("Invalid escape sequence \\" ++ toString c ++ " at line "
                   ++ toString line)
  | c :: rest => (processEscapeSequences line rest).map (List.cons c)

/-- The scanning loop of `Lexer::string`, on the characters after the
opening quote: advance (counting newlines) to the first raw quote, which
closes the literal; reaching the end first is the unterminated-string
error.  Returns the raw content, the remaining input and the line after
the literal. -/
def stringScan (line : Nat) : List Char → Except String (List Char × List Char × Nat)
  | [] => .error ("Unterminated string at line " ++ toString line)
  | c :: rest =>
    if c = '"' then .ok ([], rest, line)
    else
      match stringScan (if c = '\n' then line + 1 else line) rest with
      | .ok (content, rem, fin) => .ok (c :: content, rem, fin)
      | .error m => .error m

/-- Source `Lexer::string` as a whole (after its opening quote): scan to the
closing quote, then resolve escapes at the final line number. -/
def lexStringToken (line : Nat) (src : List Char) :
    Except String (List Char × List Char × Nat) :=
  match stringScan line src with
  | .ok (content, rem, fin) =>
    match processEscapeSequences fin content with
    | .ok resolved => .ok (resolved, rem, fin)
    | .error m => .error m
  | .error m => .error m

theorem stringScan_no_quote :
    ∀ (src : List Char) (line : Nat) (content rem : List Char) (fin : Nat),
      stringScan line src = .ok (content, rem, fin) → '"' ∉ content := by
  intro src
  induction src with
  | nil => intro line content rem fin h; exact Except.noConfusion h
  | cons c rest ih =>
    intro line content rem fin h
    simp only [stringScan] at h
    by_cases hq : c = '"'
    · rw [if_pos hq] at h
      simp only [Except.ok.injEq, Prod.mk.injEq] at h
      obtain ⟨hc, _⟩ := h
      rw [← hc]
      exact List.not_mem_nil _
    · rw [if_neg hq] at h
      cases hs : stringScan (if c = '\n' then line + 1 else line) rest with
      | ok triple =>
        obtain ⟨content2, rem2, fin2⟩ := triple
        simp only [hs, Except.ok.injEq, Prod.mk.injEq] at h
        obtain ⟨hc, _, _⟩ := h
        rw [← hc]
        intro hmem
        rcases List.mem_cons.mp hmem with h1 | h1
        · exact hq h1.symm
        · exact ih _ _ _ _ hs h1
      | error m => simp only [hs] at h; exact Except.noConfusion h

theorem stringScan_unterminated :
    ∀ (src : List Char) (line : Nat), '"' ∉ src →
      ∃ fin : Nat, stringScan line src =
        .error ("Unterminated string at line " ++ toString fin) := by
  intro src
  induction src with
  | nil => intro line _; exact ⟨line, rfl⟩
  | cons c rest ih =>
    intro line h
    simp only [List.mem_cons] at h
    push_neg at h
    obtain ⟨h1, h2⟩ := h
    obtain ⟨fin, hfin⟩ := ih (if c = '\n' then line + 1 else line) h2
    refine ⟨fin, ?_⟩
    simp only [stringScan]
    rw [if_neg (fun hc => h1 hc.symm), hfin]

/-- C2 (amended) -- the escape processor resolves exactly
`\n \t \r \\ \"` and errors on a backslash followed by any other
character, but a trailing backslash (followed by nothing) is kept
literally rather than being an error; moreover the scanner closes the
literal at the first raw quote, so scanned content never contains a
quote (in particular `\"` can never reach the escape processor from a
scanned literal), and a literal missing its closing quote is the
unterminated-string error. -/
theorem spec_c2_escapes :
    (∀ (line : Nat) (rest : List Char),
        processEscapeSequences line ('\\' :: 'n' :: rest) =
          (processEscapeSequences line rest).map (List.cons '\n') ∧
        processEscapeSequences line ('\\' :: 't' :: rest) =
          (processEscapeSequences line rest).map (List.cons '\t') ∧
        processEscapeSequences line ('\\' :: 'r' :: rest) =
          (processEscapeSequences line rest).map (List.cons '\r') ∧
        processEscapeSequences line ('\\' :: '\\' :: rest) =
          (processEscapeSequences line rest).map (List.cons '\\') ∧
        processEscapeSequences line ('\\' :: '"' :: rest) =
          (processEscapeSequences line rest).map (List.cons '"')) ∧
    (∀ (line : Nat) (c : Char) (rest : List Char),
        c ∉ (['n', 't', 'r', '\\', '"'] : List Char) →
        processEscapeSequences line ('\\' :: c :: rest) =
          .error ("Invalid escape sequence \\" ++ toString c ++ " at line "
                  ++ toString line)) ∧
    (∀ line : Nat, processEscapeSequences line ['\\'] = .ok ['\\']) ∧
    (∀ (line : Nat) (c : Char) (rest : List Char), c ≠ '\\' →
        processEscapeSequences line (c :: rest) =
          (processEscapeSequences line rest).map (List.cons c)) ∧
    (∀ (line : Nat) (src content rem : List Char) (fin : Nat),
        stringScan line src = .ok (content, rem, fin) → '"' ∉ content) ∧
    (∀ (line : Nat) (src : List Char), '"' ∉ src →
        ∃ fin : Nat, stringScan line src =
          .error ("Unterminated string at line " ++ toString fin)) := by
  refine ⟨fun line rest => ⟨rfl, rfl, rfl, rfl, rfl⟩, ?_, fun line => rfl, ?_,
    fun line src content rem fin h => stringScan_no_quote src line content rem fin h,
    fun line src h => stringScan_unterminated src line h⟩
  · intro line c rest hc
    simp only [List.mem_cons, List.not_mem_nil, or_false] at hc
    push_neg at hc
    obtain ⟨h1, h2, h3, h4, h5⟩ := hc
    conv_lhs => rw [processEscapeSequences.eq_def]
    split
    · rename_i heq
      exact absurd heq (by simp)
    · rename_i c2 rest2 heq
      simp only [List.cons.injEq, true_and] at heq
      obtain ⟨hc2, hr2⟩ := heq
      subst hc2
      subst hr2
      split <;> simp_all
    · rename_i x heq
      simp only [List.cons.injEq] at heq
      exact (x c rest heq.1.symm heq.2.symm).elim
  · intro line c rest hc
    conv_lhs => rw [processEscapeSequences.eq_def]
    split
    · rename_i heq
      exact absurd heq (by simp)
    · rename_i c2 rest2 heq
      simp only [List.cons.injEq] at heq
      exact absurd heq.1 hc
    · rename_i x heq
      simp only [List.cons.injEq] at heq
      rw [← heq.1, ← heq.2]

/-- C2 counterexample: a backslash followed by nothing is not a lexical
error — the escape processor keeps it literally, and a literal whose
backslash immediately precedes the closing quote scans successfully to
the content `a\` (the quote after the backslash still terminates it). -/
theorem spec_c2_escapes_counterexample :
    processEscapeSequences 1 ['a', '\\'] = .ok ['a', '\\'] ∧
    lexStringToken 1 ['a', '\\', '"'] = .ok (['a', '\\'], [], 1) :=
  ⟨rfl, rfl⟩

/-- Witness for C2: the error case at `\x`, the plain-character case at
`a`, the scanner cases on `ab"` and on an unterminated `ab`. -/
theorem spec_c2_escapes_witness :
    ('x' ∉ (['n', 't', 'r', '\\', '"'] : List Char)) ∧
    processEscapeSequences 1 ['\\', 'x', 'y'] =
      .error ("Invalid escape sequence \\" ++ toString 'x' ++ " at line "
              ++ toString 1) ∧
    ('a' ≠ '\\') ∧
    processEscapeSequences 1 ['a', 'b'] =
      (processEscapeSequences 1 ['b']).map (List.cons 'a') ∧
    (stringScan 1 ['a', 'b', '"'] = .ok (['a', 'b'], [], 1)) ∧
    '"' ∉ (['a', 'b'] : List Char) ∧
    ('"' ∉ (['a', 'b'] : List Char) → ∃ fin : Nat, stringScan 1 ['a', 'b'] =
      .error ("Unterminated string at line " ++ toString fin)) :=
  ⟨by decide,
   spec_c2_escapes.2.1 1 'x' ['y'] (by decide),
   by decide,
   spec_c2_escapes.2.2.2.1 1 'a' ['b'] (by decide),
   rfl,
   spec_c2_escapes.2.2.2.2.1 1 ['a', 'b', '"'] ['a', 'b'] [] 1 rfl,
   fun h => spec_c2_escapes.2.2.2.2.2 1 ['a', 'b'] h⟩

end Paijorot
